import Mathlib

set_option autoImplicit false

/-!
Shallow embedding of the `huggingface` Go package (huggingface.go) in Lean 4,
together with theorems settling the specification claims about it.

Go strings are embedded as `List Char`; Go byte/rune-level operations
(`strings.IndexByte`, `strings.Split`, `strings.TrimSpace`, ...) are modelled
as structurally recursive functions on `List Char`.  Effectful operations
(network calls, filesystem reads/writes) are modelled by passing an explicit
environment recording the outcome of each effect and returning a record of the
effects performed.
-/

/-- Convert a Lean string literal to the `List Char` representation used for Go
strings throughout this development. -/
def gs (s : String) : List Char := s.data

/-! ### Go standard-library string helpers -/

/-- Go's `strings.IndexByte(s, '/')` combined with the slicing pattern
`s[:i], s[i+1:]` used all over `PackedFileRef`: returns the part before the
first `'/'` and the part after it, or `none` when there is no `'/'`
(`IndexByte` returning `-1`). -/
def breakSlash : List Char → Option (List Char × List Char)
  | [] => none
  | c :: rest =>
    if c = '/' then some ([], rest)
    else (breakSlash rest).map (fun p => (c :: p.1, p.2))

/-- Go's `strings.Split(s, "/")` (separator non-empty, so the empty string splits to
one empty segment). -/
def splitSlash : List Char → List (List Char)
  | [] => [[]]
  | c :: rest =>
    match splitSlash rest with
    | [] => [[]]
    | g :: gsegs => if c = '/' then [] :: g :: gsegs else (c :: g) :: gsegs

/-- Go's `strings.TrimPrefix(s, p)`: drop `p` from the front of `s` when it is a
prefix, otherwise return `s` unchanged. -/
def goTrimPre (p s : List Char) : List Char :=
  if p.isPrefixOf s then s.drop p.length else s

/-- The subset of `unicode.IsSpace` relevant to this code base (ASCII
whitespace plus the two Latin-1 space runes), used by `strings.TrimSpace`. -/
def isGoSpace (c : Char) : Bool :=
  c = ' ' || c = '\t' || c = '\n' || c = '\x0b' || c = '\x0c' || c = '\r' ||
  c = '\x85' || c = '\xa0'

/-- Go's `strings.TrimSpace(s)`. -/
def trimSpace (s : List Char) : List Char :=
  ((s.dropWhile isGoSpace).reverse.dropWhile isGoSpace).reverse

/-- Go's `strings.Trim(s, string(c))` for a one-character cutset: remove every
leading and trailing occurrence of `c`. -/
def trimChar (c : Char) (s : List Char) : List Char :=
  ((s.dropWhile (· = c)).reverse.dropWhile (· = c)).reverse

/-- A hexadecimal digit as accepted by the character classes of `reSHA1` and
`reSHA256` (`[a-fA-F0-9]`). -/
def isHexDigit (c : Char) : Bool :=
  ('0' ≤ c && c ≤ '9') || ('a' ≤ c && c ≤ 'f') || ('A' ≤ c && c ≤ 'F')

/-- Matcher `reSHA1.MatchString(s)` for `reSHA1 = "^[a-fA-F0-9]{40}$"`. -/
def reSHA1match (s : List Char) : Bool :=
  s.length = 40 && s.all isHexDigit

/-- Matcher `reSHA256.MatchString(s)` for `reSHA256 = "^[a-fA-F0-9]{64}$"`. -/
def reSHA256match (s : List Char) : Bool :=
  s.length = 64 && s.all isHexDigit

/-- Decimal digit. -/
def isDigit (c : Char) : Bool := '0' ≤ c && c ≤ '9'

/-- Value of a decimal digit string (used by `parseInt64`). -/
def digitsVal (ds : List Char) : Nat :=
  ds.foldl (fun acc d => acc * 10 + (d.toNat - '0'.toNat)) 0

/-- Go's `strconv.ParseInt(s, 10, 64)`: an optional sign, at least one decimal
digit, and the value must fit in a signed 64-bit integer; `none` models a
non-nil `error` result. -/
def parseInt64 (s : List Char) : Option Int :=
  let signed : Bool × List Char :=
    match s with
    | '-' :: rest => (true, rest)
    | '+' :: rest => (false, rest)
    | _ => (false, s)
  let ds := signed.2
  if ds = [] then none
  else if ¬ ds.all isDigit then none
  else
    let v : Int := if signed.1 then -(digitsVal ds : Int) else (digitsVal ds : Int)
    if -(2 ^ 63) ≤ v ∧ v < 2 ^ 63 then some v else none

/-! ### PackedFileRef (reference parser) -/

/-- Constructor `MakePackedFileRef(author, repo, revision, file)`:
`"hf:" + author + "/" + repo + "/" + revision + "/" + file`. -/
def MakePackedFileRef (author repo revision file : List Char) : List Char :=
  gs "hf:" ++ (author ++ '/' :: (repo ++ '/' :: (revision ++ '/' :: file)))

namespace PackedFileRef

/-- Accessor `PackedFileRef.Author`: the part before the first `'/'`, with the `"hf:"`
scheme stripped; `""` when there is no `'/'`. -/
def Author (p : List Char) : List Char :=
  match breakSlash p with
  | some pr => goTrimPre (gs "hf:") pr.1
  | none => []

/-- Accessor `PackedFileRef.Repo`: the part between the first and second `'/'`. -/
def Repo (p : List Char) : List Char :=
  match breakSlash p with
  | some pr =>
    match breakSlash pr.2 with
    | some pr2 => pr2.1
    | none => []
  | none => []

/-- Accessor `PackedFileRef.Commitish`: the part between the third and fourth `'/'`. -/
def Commitish (p : List Char) : List Char :=
  match breakSlash p with
  | some pr =>
    match breakSlash pr.2 with
    | some pr2 =>
      match breakSlash pr2.2 with
      | some pr3 => pr3.1
      | none => []
    | none => []
  | none => []

/-- Accessor `PackedFileRef.Basename`: everything after the third `'/'`. -/
def Basename (p : List Char) : List Char :=
  match breakSlash p with
  | some pr =>
    match breakSlash pr.2 with
    | some pr2 =>
      match breakSlash pr2.2 with
      | some pr3 => pr3.2
      | none => []
    | none => []
  | none => []

/-- Result of `PackedFileRef.Validate`.  `panics` records the run-time panic
caused by the slice expression `string(p)[4:]` when the string is shorter than
4 bytes (only possible for the exact string `"hf:"`, given the scheme check),
which in Go is an out-of-range panic rather than an error return. -/
inductive ValidateOutcome where
  | ok : ValidateOutcome
  | invalid : ValidateOutcome
  | panics : ValidateOutcome
  deriving DecidableEq

/-- Validator `PackedFileRef.Validate`: checks the `"hf:"` scheme, then splits
`string(p)[4:]` (note: index 4, although the scheme is 3 bytes long) on `'/'`
and requires at least 4 segments, a non-empty third segment, and every segment
to be at least 3 bytes long. -/
def Validate (p : List Char) : ValidateOutcome :=
  if ¬ (gs "hf:").isPrefixOf p then .invalid
  else if p.length < 4 then .panics
  else
    let parts := splitSlash (p.drop 4)
    if parts.length < 4 then .invalid
    else if (parts.getD 2 []).length = 0 then .invalid
    else if ¬ parts.all (fun q => 3 ≤ q.length) then .invalid
    else .ok

end PackedFileRef

/-! ### GetModelInfo (metadata resolver) -/

/-- The fields of the decoded `modelInfoResponse` that `GetModelInfo` reads.
`parameters` is `safetensors.parameters` listed in the (runtime-chosen)
iteration order of the Go map; `siblings` is the list of `rfilename` values in
the response's original order.  Timestamps are carried as opaque integers. -/
structure ModelInfoResponse where
  createdAt : Int
  lastModified : Int
  sha : List Char
  license : List Char
  licenseURL : List Char
  baseModel : List Char
  siblings : List (List Char)
  parameters : List (List Char × Int)
  total : Int
  deriving DecidableEq

/-- The fields of `Model` written by `GetModelInfo` (plus `ContextLength`,
which it never touches). -/
structure ModelState where
  TensorType : List Char
  NumWeights : Int
  ContextLength : Int
  License : List Char
  LicenseURL : List Char
  Files : List (List Char)
  Created : Int
  Modified : Int
  SHA : List Char
  UpstreamAuthor : List Char
  UpstreamRepo : List Char
  deriving DecidableEq

/-- The zero value `Model{ModelRef: ref}` that `resolveCommit` passes to
`GetModelInfo` (the `ModelRef` itself does not appear in `ModelState`). -/
def freshModel : ModelState :=
  { TensorType := [], NumWeights := 0, ContextLength := 0, License := [],
    LicenseURL := [], Files := [], Created := 0, Modified := 0, SHA := [],
    UpstreamAuthor := [], UpstreamRepo := [] }

/-- The loop `for k, s := range r.SafeTensors.Parameters { if s > m.NumWeights
{ m.TensorType = k; m.NumWeights = s } }`, with the accumulator being the
current `(m.TensorType, m.NumWeights)` pair. -/
def foldPick : List (List Char × Int) → (List Char × Int) → (List Char × Int)
  | [], acc => acc
  | (k, s) :: rest, acc => foldPick rest (if acc.2 < s then (k, s) else acc)

/-- The field assignments of `GetModelInfo` after a successful decode
(huggingface.go lines 384-407). -/
def getModelInfoUpdate (m : ModelState) (r : ModelInfoResponse) : ModelState :=
  let upstream : List Char × List Char :=
    match splitSlash r.baseModel with
    | [a, b] => (a, b)
    | _ => (m.UpstreamAuthor, m.UpstreamRepo)
  let picked := foldPick r.parameters (m.TensorType, m.NumWeights)
  { m with
    Files := r.siblings
    Created := r.createdAt
    Modified := r.lastModified
    SHA := r.sha
    UpstreamAuthor := upstream.1
    UpstreamRepo := upstream.2
    License := r.license
    LicenseURL := r.licenseURL
    TensorType := picked.1
    NumWeights := if picked.2 = 0 then r.total else picked.2 }

/-- The JSON names (struct tags, or field names when untagged) of the
top-level fields of `modelInfoResponse`; `encoding/json` matches them
case-insensitively. -/
def modelInfoKnownFields : List (List Char) :=
  [gs "_id", gs "author", gs "cardData", gs "config", gs "createdAt",
   gs "disabled", gs "downloads", gs "gated", gs "id", gs "lastModified",
   gs "library_name", gs "likes", gs "model-index", gs "modelId",
   gs "pipeline_tag", gs "private", gs "safetensors", gs "sha",
   gs "Siblings", gs "spaces", gs "tags", gs "transformersInfo",
   gs "widgetData"]

/-- Whether a top-level JSON field name of the metadata response matches (case
insensitively) some field of the expected schema. -/
def isKnownModelInfoField (f : List Char) : Bool :=
  modelInfoKnownFields.any (fun k => k.map Char.toLower = f.map Char.toLower)

/-- The function `GetModelInfo` unconditionally calls `d.DisallowUnknownFields()` on its
JSON decoder (huggingface.go line 378): strict decoding is always enabled. -/
def disallowUnknown : Bool := true

/-- Go's `encoding/json` decode strictness: a lenient decoder ignores unknown
fields; after `DisallowUnknownFields`, any unknown field is a decode error. -/
def decodeModelInfoFields (strict : Bool) (fields : List (List Char)) : Bool :=
  !strict || fields.all isKnownModelInfoField

/-- Result of `GetModelInfo`. -/
inductive GetModelInfoResult where
  | ok : ModelState → GetModelInfoResult
  | fetchErr : List Char → GetModelInfoResult
  | parseErr : GetModelInfoResult
  deriving DecidableEq

/-- Model of `Client.GetModelInfo`: the `authGet` fetch and body read are abstracted
into `fetch`, whose `.ok` payload carries the response's top-level JSON field
names together with the decoded values; the decoder always has
`DisallowUnknownFields` set. -/
def GetModelInfoModel (m : ModelState)
    (fetch : Except (List Char) (List (List Char) × ModelInfoResponse)) :
    GetModelInfoResult :=
  match fetch with
  | .error e => .fetchErr e
  | .ok (bodyFields, r) =>
    if decodeModelInfoFields disallowUnknown bodyFields then
      .ok (getModelInfoUpdate m r)
    else .parseErr

/-! ### GetFileInfo (head-probe header validation) -/

/-- The response headers that `GetFileInfo` reads; `[]` models an absent
header (`http.Header.Get` returns `""`). -/
structure FileInfoHeaders where
  xRepoCommit : List Char
  xLinkedEtag : List Char
  etagHeader : List Char
  xLinkedSize : List Char
  contentLength : List Char
  deriving DecidableEq

/-- Result of `GetFileInfo` (commitish, etag, size on success; one constructor
per distinct error return). -/
inductive FileInfoResult where
  | ok : List Char → List Char → Int → FileInfoResult
  | missingCommit : FileInfoResult
  | badEtag : List Char → FileInfoResult
  | missingSize : FileInfoResult
  | badSize : List Char → FileInfoResult
  deriving DecidableEq

/-- The etag header chosen by `GetFileInfo`: `X-Linked-Etag`, else `Etag`. -/
def chosenEtag (h : FileInfoHeaders) : List Char :=
  if h.xLinkedEtag = [] then h.etagHeader else h.xLinkedEtag

/-- Computes `strings.Trim(strings.TrimPrefix(etag, "W/"), "\"")`. -/
def strippedEtag (h : FileInfoHeaders) : List Char :=
  trimChar '\"' (goTrimPre (gs "W/") (chosenEtag h))

/-- The size header chosen by `GetFileInfo`: `X-Linked-Size`, else
`Content-Length`. -/
def chosenSize (h : FileInfoHeaders) : List Char :=
  if h.xLinkedSize = [] then h.contentLength else h.xLinkedSize

/-- Model of `Client.GetFileInfo` (huggingface.go lines 475-516), built from the
point where the HEAD response headers are available. -/
def GetFileInfo (h : FileInfoHeaders) : FileInfoResult :=
  if h.xRepoCommit = [] then .missingCommit
  else
    let etag := strippedEtag h
    if ¬ reSHA256match etag then .badEtag etag
    else
      let sizeStr := chosenSize h
      if sizeStr = [] then .missingSize
      else
        match parseInt64 sizeStr with
        | none => .badSize sizeStr
        | some n => .ok h.xRepoCommit etag n

/-! ### authGet (resilient fetcher) -/

/-- Outcome of one `h.Do(req)` call: either a non-nil transport `error` (with
a nil `*http.Response`), or a response with the given status code. -/
inductive DoResult where
  | failure : String → DoResult
  | response : Nat → DoResult
  deriving DecidableEq

/-- How a call to `authGet` terminates.  `nilDerefPanic` records the run-time
nil-pointer dereference that occurs when `h.Do` returns a non-nil error (hence
a nil response) and the code immediately evaluates `resp.StatusCode`. -/
inductive FetchOutcome where
  | success : Nat → FetchOutcome
  | authErrTokenMissing : FetchOutcome
  | authErrTokenRejected : FetchOutcome
  | httpErr : Nat → FetchOutcome
  | retryExhausted : FetchOutcome
  | nilDerefPanic : String → FetchOutcome
  deriving DecidableEq

/-- Observable trace of an `authGet` call: its outcome, the number of `h.Do`
invocations performed, and the seconds slept before each retry, in order. -/
structure FetchTrace where
  outcome : FetchOutcome
  calls : Nat
  sleeps : List Nat
  deriving DecidableEq

/-- The retry condition of `authGet`:
`resp.StatusCode == 429 || (resp.StatusCode >= 500 && resp.StatusCode < 600)`. -/
def retryable (s : Nat) : Bool :=
  s = 429 || (500 ≤ s && s < 600)

/-- One iteration of the `authGet` loop body (huggingface.go lines 610-627):
`d` is the result of `h.Do(req)`, `retry` the value of the remaining loop
iterations (taken when the status is 429/5xx, after the `time.Sleep`). -/
def authGetStep (tok : Bool) (i : Nat) (acc : List Nat) :
    DoResult → FetchTrace → FetchTrace
  | .failure e, _ => ⟨.nilDerefPanic e, i + 1, acc.reverse⟩
  | .response s, retry =>
    if 400 ≤ s then
      if s = 401 then
        ⟨if tok then .authErrTokenRejected else .authErrTokenMissing,
         i + 1, acc.reverse⟩
      else if retryable s then retry
      else ⟨.httpErr s, i + 1, acc.reverse⟩
    else ⟨.success s, i + 1, acc.reverse⟩

/-- The `for i := 0; i < 10; i++` loop of `authGet` (huggingface.go lines
609-629).  `doF i` is the result of the `h.Do(req)` call on loop iteration
`i`; `acc` accumulates the sleeps in reverse. -/
def authGetLoop (tok : Bool) (doF : Nat → DoResult) :
    Nat → Nat → List Nat → FetchTrace
  | 0, i, acc => ⟨.retryExhausted, i, acc.reverse⟩
  | fuel + 1, i, acc =>
    authGetStep tok i acc (doF i)
      (authGetLoop tok doF fuel (i + 1) ((i + 1) :: acc))

/-- Model of `authGet` from the point where the request has been built: `tok` records
whether a bearer token was supplied, `doF` the underlying HTTP client's
behavior on each attempt. -/
def authGet (tok : Bool) (doF : Nat → DoResult) : FetchTrace :=
  authGetLoop tok doF 10 0 []

/-! ### resolveCommit and EnsureSnapshot -/

deriving instance DecidableEq for Except

/-- The error returns of `resolveCommit`, `EnsureSnapshot` and `New`. -/
inductive HFError where
  | homeDirFailed : String → HFError
  | mkdirFailed : HFError
  | refNotCommitHash : List Char → HFError
  | metadataFailed : List Char → HFError
  | shaNotCommitHash : List Char → HFError
  | writeFailed : HFError
  | implementMe : HFError
  | invalidToken : HFError
  deriving DecidableEq

/-- Environment for one `resolveCommit` call: whether the cache-directory
creation succeeds, the content of the ref-pointer file `refs/<revision>` when
it is readable, and the outcome of the `GetModelInfo` network call were it
issued. -/
structure ResolveEnv where
  mkdirOk : Bool
  refFile : Option (List Char)
  metadata : Except (List Char) ModelInfoResponse
  writeOk : Bool
  deriving DecidableEq

/-- Observable result of `resolveCommit`: the returned value (commit id plus
the metadata when it was freshly fetched), whether a network call was issued,
and what was written to the ref-pointer file. -/
structure ResolveOutcome where
  result : Except HFError (List Char × Option ModelState)
  networkCalled : Bool
  written : Option (List Char)
  deriving DecidableEq

/-- Model of `Client.resolveCommit` (huggingface.go lines 533-561). -/
def resolveCommit (env : ResolveEnv) : ResolveOutcome :=
  if env.mkdirOk = false then ⟨.error .mkdirFailed, false, none⟩
  else
    match env.refFile with
    | some b =>
      let c := trimSpace b
      if reSHA1match c then ⟨.ok (c, none), false, none⟩
      else ⟨.error (.refNotCommitHash c), false, none⟩
    | none =>
      match env.metadata with
      | .error e => ⟨.error (.metadataFailed e), true, none⟩
      | .ok r =>
        let m := getModelInfoUpdate freshModel r
        if ¬ reSHA1match m.SHA then ⟨.error (.shaNotCommitHash m.SHA), true, none⟩
        else if env.writeOk = false then ⟨.error .writeFailed, true, none⟩
        else ⟨.ok (m.SHA, some m), true, some m.SHA⟩

/-- Observable result of `EnsureSnapshot`. -/
structure SnapshotOutcome where
  result : Except HFError (List (List Char))
  networkCalled : Bool
  deriving DecidableEq

/-- Model of `Client.EnsureSnapshot` (huggingface.go lines 461-470): resolves the
commit, discards the results, and unconditionally returns the error
`"implement me"`; the pattern list is never inspected. -/
def EnsureSnapshot (env : ResolveEnv) (_glob : List (List Char)) :
    SnapshotOutcome :=
  let r := resolveCommit env
  match r.result with
  | .error e => ⟨.error e, r.networkCalled⟩
  | .ok _ => ⟨.error .implementMe, r.networkCalled⟩

/-! ### New (client construction) -/

/-- Environment for one `New` call: the result of `os.UserHomeDir`, the four
environment variables (`[]` = unset), whether `os.MkdirAll` succeeds, the
content of the token file when it exists, and whether `os.WriteFile` on the
token file succeeds. -/
structure NewEnv where
  homeDir : Except String (List Char)
  hfHome : List Char
  hfHubCache : List Char
  hfTokenPath : List Char
  hfToken : List Char
  mkdirOk : Bool
  tokenFile : Option (List Char)
  writeOk : Bool
  deriving DecidableEq

/-- The fields of `Client` set by `New`. -/
structure ClientState where
  serverBase : List Char
  token : List Char
  hubHomeDir : List Char
  hubCacheDir : List Char
  deriving DecidableEq

/-- Observable result of `New`: the constructed client or the error, and what
was written to the token file. -/
structure NewOutcome where
  result : Except HFError ClientState
  written : Option (List Char)
  deriving DecidableEq

/-- Model of `New` (huggingface.go lines 268-311).  The token-file path itself
(`HF_TOKEN_PATH`, else `<hubHomeDir>/token`) is kept abstract: `env.tokenFile`
is the content of whichever file that is.  Note the order of operations in the
source: when a non-empty token is supplied and the token file does not exist,
the token is written to the token file *before* the `hf_` prefix check. -/
def NewClient (token : List Char) (env : NewEnv) : NewOutcome :=
  match env.homeDir with
  | .error e => ⟨.error (.homeDirFailed e), none⟩
  | .ok home =>
    let hubHomeDir := if env.hfHome = [] then home ++ gs "/.cache/huggingface" else env.hfHome
    let hubCacheDir := if env.hfHubCache = [] then hubHomeDir ++ gs "/hub" else env.hfHubCache
    if env.mkdirOk = false then ⟨.error .mkdirFailed, none⟩
    else
      let step : Except HFError (List Char × Option (List Char)) :=
        if token = [] then
          if env.hfToken = [] then
            match env.tokenFile with
            | some c => .ok (trimSpace c, none)
            | none => .ok ([], none)
          else .ok (env.hfToken, none)
        else
          match env.tokenFile with
          | none =>
            if env.writeOk then .ok (token, some token)
            else .error .writeFailed
          | some _ => .ok (token, none)
      match step with
      | .error e => ⟨.error e, none⟩
      | .ok (tok, written) =>
        if tok ≠ [] ∧ ¬ (gs "hf_").isPrefixOf tok then
          ⟨.error .invalidToken, written⟩
        else
          ⟨.ok ⟨gs "https://huggingface.co", tok, hubHomeDir, hubCacheDir⟩,
           written⟩

/-! ### Spec-side predicates and concrete fixtures -/

/-- The validity condition as the specification words it: the scheme prefix is
present, and the slash-delimited segments *after the scheme prefix* (3 bytes)
number at least 4, with the owner and name segments at least 3 characters each
and a non-empty revision segment. -/
def specFileRefValid (p : List Char) : Prop :=
  (gs "hf:").isPrefixOf p = true ∧
  4 ≤ (splitSlash (p.drop 3)).length ∧
  3 ≤ ((splitSlash (p.drop 3)).getD 0 []).length ∧
  3 ≤ ((splitSlash (p.drop 3)).getD 1 []).length ∧
  (splitSlash (p.drop 3)).getD 2 [] ≠ []

/-- A `Do` result that makes `authGet` sleep and retry: a response whose
status is 429 or 5xx. -/
def retryResp (d : DoResult) : Prop :=
  ∃ s, d = .response s ∧ 400 ≤ s ∧ retryable s = true

/-- The 19 sibling filenames of the Phi-3 metadata response from the
repository's test data. -/
def phi3Siblings : List (List Char) :=
  [gs ".gitattributes", gs "CODE_OF_CONDUCT.md", gs "LICENSE", gs "NOTICE.md",
   gs "README.md", gs "SECURITY.md", gs "added_tokens.json", gs "config.json",
   gs "configuration_phi3.py", gs "generation_config.json",
   gs "model-00001-of-00002.safetensors", gs "model-00002-of-00002.safetensors",
   gs "model.safetensors.index.json", gs "modeling_phi3.py",
   gs "sample_finetune.py", gs "special_tokens_map.json", gs "tokenizer.json",
   gs "tokenizer.model", gs "tokenizer_config.json"]

/-- The Phi-3 metadata response from the repository's test data (timestamps
as unix seconds; the test body carries no `sha`). -/
def phi3Resp : ModelInfoResponse :=
  { createdAt := 1713802697, lastModified := 1719868610, sha := [],
    license := gs "mit",
    licenseURL := gs "https://huggingface.co/microsoft/Phi-3-mini-4k-instruct/resolve/main/LICENSE",
    baseModel := [], siblings := phi3Siblings,
    parameters := [(gs "BF16", 3821079552)], total := 3821079552 }

/-- The commit id of the Llama-3.2-3B test response. -/
def llamaSHA : List Char := gs "13afe5124825b4f3751f836b40dafda64c1ed062"

/-- A small metadata response whose `sha` is a well-formed commit id. -/
def snapResp : ModelInfoResponse :=
  { createdAt := 1726673028, lastModified := 1729782460, sha := llamaSHA,
    license := gs "llama3.2", licenseURL := [], baseModel := [],
    siblings := [gs "config.json"], parameters := [(gs "BF16", 3212749824)],
    total := 3212749824 }

/-- A `resolveCommit` environment with a populated ref-pointer file. -/
def refEnvHit : ResolveEnv :=
  ⟨true, some (gs "  13afe5124825b4f3751f836b40dafda64c1ed062\n"),
   .error (gs "network unavailable"), false⟩

/-- A `resolveCommit` environment with a cold cache. -/
def refEnvMiss : ResolveEnv := ⟨true, none, .ok snapResp, true⟩

/-- A cold-cache environment for `EnsureSnapshot`. -/
def coldSnapshotEnv : ResolveEnv := ⟨true, none, .ok snapResp, true⟩

/-- The lowercase-only 64-hex shape `^[a-f0-9]\x7b64\x7d$` that the claim
requires of the etag. -/
def specLowerSHA256 (s : List Char) : Bool :=
  s.length = 64 && s.all (fun c => ('0' ≤ c && c ≤ '9') || ('a' ≤ c && c ≤ 'f'))

/-- Headers with an uppercase-hex etag and a negative size. -/
def badHeaders : FileInfoHeaders :=
  { xRepoCommit := gs "13afe5124825b4f3751f836b40dafda64c1ed062",
    xLinkedEtag := List.replicate 64 'A',
    etagHeader := [], xLinkedSize := gs "-5", contentLength := [] }

/-- Headers of a well-formed HEAD probe response. -/
def okHeaders : FileInfoHeaders :=
  { xRepoCommit := gs "13afe5124825b4f3751f836b40dafda64c1ed062",
    xLinkedEtag :=
      gs "W/\"a3f1c2d4e5b6a7f8091a2b3c4d5e6f7a8b9c0d1e2f3a4b5c6d7e8f9a0b1c2d3e\"",
    etagHeader := [], xLinkedSize := [], contentLength := gs "123" }

/-- A `New` environment with no pre-existing token file. -/
def noTokenFileEnv : NewEnv :=
  ⟨.ok (gs "/home/user"), [], [], [], [], true, none, true⟩

/-- A `New` environment whose token file already exists. -/
def someTokenFileEnv : NewEnv :=
  ⟨.ok (gs "/home/user"), [], [], [], [], true, some (gs "hf_old"), true⟩

/-! Basic sanity checks of the embedding on concrete values. -/

example : gs "hf:" = ['h', 'f', ':'] := rfl

example : splitSlash (gs "a/bc//d") = [gs "a", gs "bc", gs "", gs "d"] := by decide

example : breakSlash (gs "ab/cd/e") = some (gs "ab", gs "cd/e") := by decide

example : parseInt64 (gs "-5") = some (-5) := by decide

example : parseInt64 (gs "") = none := by decide

example : parseInt64 (gs "12x") = none := by decide

example : trimSpace (gs "  abc\n") = gs "abc" := by decide

example : trimChar '\"' (goTrimPre (gs "W/") (gs "W/\"abcd\"")) = gs "abcd" := by decide

example : PackedFileRef.Author (MakePackedFileRef (gs "own") (gs "rep") (gs "main") (gs "a/b.txt")) = gs "own" := by decide

example : PackedFileRef.Basename (MakePackedFileRef (gs "own") (gs "rep") (gs "main") (gs "a/b.txt")) = gs "a/b.txt" := by decide

example : PackedFileRef.Validate (gs "hf:abc/def/main/file.txt") = .invalid := by decide

example : PackedFileRef.Validate (gs "hf:abcd/def/main/file.txt") = .ok := by decide

example : PackedFileRef.Validate (gs "hf:") = .panics := by decide

example :
    GetFileInfo ⟨gs "c", gs "W/\"aaaaaaaaaaaaaaaaaaaaaaaaaaaaaaaaaaaaaaaaaaaaaaaaaaaaaaaaaaaaaaaa\"", [], gs "123", []⟩
      = .ok (gs "c") (gs "aaaaaaaaaaaaaaaaaaaaaaaaaaaaaaaaaaaaaaaaaaaaaaaaaaaaaaaaaaaaaaaa") 123 := by
  decide

example : GetFileInfo ⟨[], gs "x", [], gs "1", []⟩ = .missingCommit := by decide

example : authGet true (fun _ => .response 200) = ⟨.success 200, 1, []⟩ := by decide

example : authGet false (fun _ => .response 401) = ⟨.authErrTokenMissing, 1, []⟩ := by decide

example : authGet true (fun _ => .response 404) = ⟨.httpErr 404, 1, []⟩ := by decide

example :
    authGet true (fun _ => .response 503)
      = ⟨.retryExhausted, 10, [1, 2, 3, 4, 5, 6, 7, 8, 9, 10]⟩ := by decide

example :
    authGet true (fun i => if i < 2 then .response 503 else .response 200)
      = ⟨.success 200, 3, [1, 2]⟩ := by decide

example :
    (NewClient (gs "xyz") ⟨.ok (gs "/home/u"), [], [], [], [], true, none, true⟩).written
      = some (gs "xyz") := by decide

example :
    (NewClient (gs "hf_ok") ⟨.ok (gs "/home/u"), [], [], [], [], true, some (gs "hf_old"), true⟩).result
      = .ok ⟨gs "https://huggingface.co", gs "hf_ok",
             gs "/home/u/.cache/huggingface", gs "/home/u/.cache/huggingface/hub"⟩ := by
  decide

/-! ### Lemmas about the string helpers -/

theorem isPrefixOf_append_self (p t : List Char) : p.isPrefixOf (p ++ t) = true := by
  induction p with
  | nil => simp [List.isPrefixOf]
  | cons a as ih => simp [List.isPrefixOf, ih]

theorem goTrimPre_append (p t : List Char) : goTrimPre p (p ++ t) = t := by
  simp [goTrimPre, isPrefixOf_append_self, List.drop_left]

theorem breakSlash_append {a : List Char} (b : List Char) (h : '/' ∉ a) :
    breakSlash (a ++ '/' :: b) = some (a, b) := by
  induction a with
  | nil => simp [breakSlash]
  | cons c cs ih =>
    have hc : ¬ (c = '/') := fun hcc => h (hcc ▸ List.mem_cons_self c cs)
    have hcs : '/' ∉ cs := fun hm => h (List.mem_cons_of_mem _ hm)
    simp [breakSlash, hc, ih hcs]

theorem splitSlash_ne_nil (s : List Char) : splitSlash s ≠ [] := by
  cases s with
  | nil => simp [splitSlash]
  | cons c rest =>
    unfold splitSlash
    cases splitSlash rest with
    | nil => simp
    | cons g t =>
      by_cases hc : c = '/' <;> simp [hc]

theorem splitSlash_cons (c : Char) (rest : List Char) :
    splitSlash (c :: rest) =
      match splitSlash rest with
      | [] => [[]]
      | g :: t => if c = '/' then [] :: g :: t else (c :: g) :: t := rfl

theorem splitSlash_append {a : List Char} (b : List Char) (h : '/' ∉ a) :
    splitSlash (a ++ '/' :: b) = a :: splitSlash b := by
  induction a with
  | nil =>
    simp only [List.nil_append]
    rw [splitSlash_cons]
    cases hs : splitSlash b with
    | nil => exact absurd hs (splitSlash_ne_nil b)
    | cons g t => simp
  | cons c cs ih =>
    have hc : ¬ (c = '/') := fun hcc => h (hcc ▸ List.mem_cons_self c cs)
    have hcs : '/' ∉ cs := fun hm => h (List.mem_cons_of_mem _ hm)
    simp only [List.cons_append]
    rw [splitSlash_cons, ih hcs]
    simp [hc]

/-! ### Claim C7: round trip of MakePackedFileRef and the accessors -/

/-- C7: for every owner, name, revision and file path, with owner, name and
revision containing no slash, constructing a packed file reference with
`MakePackedFileRef` and reading it back through `Author`, `Repo`, `Commitish`
and `Basename` yields exactly the original four components. -/
theorem PackedFileRef_roundTrip (author repo revision file : List Char)
    (ha : '/' ∉ author) (hr : '/' ∉ repo) (hv : '/' ∉ revision) :
    PackedFileRef.Author (MakePackedFileRef author repo revision file) = author ∧
    PackedFileRef.Repo (MakePackedFileRef author repo revision file) = repo ∧
    PackedFileRef.Commitish (MakePackedFileRef author repo revision file) = revision ∧
    PackedFileRef.Basename (MakePackedFileRef author repo revision file) = file := by
  have hno : '/' ∉ gs "hf:" ++ author := by
    intro hm
    rcases List.mem_append.1 hm with h | h
    · simp [gs] at h
    · exact ha h
  have h1 : breakSlash (MakePackedFileRef author repo revision file)
      = some (gs "hf:" ++ author, repo ++ '/' :: (revision ++ '/' :: file)) := by
    have hform : MakePackedFileRef author repo revision file
        = (gs "hf:" ++ author) ++ '/' :: (repo ++ '/' :: (revision ++ '/' :: file)) := by
      simp [MakePackedFileRef, List.append_assoc]
    rw [hform, breakSlash_append _ hno]
  have h2 : breakSlash (repo ++ '/' :: (revision ++ '/' :: file))
      = some (repo, revision ++ '/' :: file) := breakSlash_append _ hr
  have h3 : breakSlash (revision ++ '/' :: file) = some (revision, file) :=
    breakSlash_append _ hv
  refine ⟨?_, ?_, ?_, ?_⟩
  · rw [PackedFileRef.Author, h1]
    exact goTrimPre_append _ _
  · rw [PackedFileRef.Repo, h1]
    simp [h2]
  · rw [PackedFileRef.Commitish, h1]
    simp [h2, h3]
  · rw [PackedFileRef.Basename, h1]
    simp [h2, h3]

/-- Witness for C7 at a concrete reference. -/
theorem PackedFileRef_roundTrip_witness :
    ('/' ∉ gs "microsoft") ∧ ('/' ∉ gs "Phi-3-mini-4k-instruct") ∧ ('/' ∉ gs "main") ∧
    (PackedFileRef.Author (MakePackedFileRef (gs "microsoft") (gs "Phi-3-mini-4k-instruct") (gs "main") (gs "a/b.txt")) = gs "microsoft" ∧
     PackedFileRef.Repo (MakePackedFileRef (gs "microsoft") (gs "Phi-3-mini-4k-instruct") (gs "main") (gs "a/b.txt")) = gs "Phi-3-mini-4k-instruct" ∧
     PackedFileRef.Commitish (MakePackedFileRef (gs "microsoft") (gs "Phi-3-mini-4k-instruct") (gs "main") (gs "a/b.txt")) = gs "main" ∧
     PackedFileRef.Basename (MakePackedFileRef (gs "microsoft") (gs "Phi-3-mini-4k-instruct") (gs "main") (gs "a/b.txt")) = gs "a/b.txt") :=
  ⟨by decide, by decide, by decide,
   PackedFileRef_roundTrip (gs "microsoft") (gs "Phi-3-mini-4k-instruct") (gs "main") (gs "a/b.txt")
     (by decide) (by decide) (by decide)⟩

/-! ### Claim C5: PackedFileRef.Validate -/

/-- C5 counterexample: `"hf:abc/def/main/file.txt"` satisfies every condition
the claim lists (scheme prefix, 3-character owner and name, non-empty
revision, 4 segments after the scheme prefix), yet `Validate` rejects it,
because the code slices `string(p)[4:]` — skipping the owner's first byte —
so the owner segment it inspects is `"bc"`, shorter than 3. -/
theorem Validate_claim_counterexample :
    specFileRefValid (gs "hf:abc/def/main/file.txt") ∧
    PackedFileRef.Validate (gs "hf:abc/def/main/file.txt") = .invalid := by
  constructor
  · exact ⟨by decide, by decide, by decide, by decide, by decide⟩
  · decide

/-- C5 amended: for a file reference assembled from a non-empty slash-free
owner, slash-free name and revision, and a path, `Validate` succeeds exactly
when the owner is at least 4 characters (its first character is skipped by the
`[4:]` slice), the name and the revision are each at least 3 characters, and
every slash-delimited path segment is at least 3 characters. -/
theorem Validate_characterization (author repo revision file : List Char)
    (ha : '/' ∉ author) (hr : '/' ∉ repo) (hv : '/' ∉ revision)
    (hne : author ≠ []) :
    PackedFileRef.Validate (MakePackedFileRef author repo revision file)
        = .ok ↔
      (4 ≤ author.length ∧ 3 ≤ repo.length ∧ 3 ≤ revision.length ∧
        ∀ seg ∈ splitSlash file, 3 ≤ seg.length) := by
  obtain ⟨c, a', rfl⟩ : ∃ c a', author = c :: a' := by
    cases author with
    | nil => exact absurd rfl hne
    | cons c a' => exact ⟨c, a', rfl⟩
  have ha' : '/' ∉ a' := fun hm => ha (List.mem_cons_of_mem _ hm)
  have hform : MakePackedFileRef (c :: a') repo revision file
      = ['h', 'f', ':'] ++ c :: (a' ++ '/' :: (repo ++ '/' :: (revision ++ '/' :: file))) := rfl
  have hpre : (gs "hf:").isPrefixOf
      (['h', 'f', ':'] ++ c :: (a' ++ '/' :: (repo ++ '/' :: (revision ++ '/' :: file)))) = true :=
    isPrefixOf_append_self _ _
  have hsplit : splitSlash ((['h', 'f', ':'] ++ c :: (a' ++ '/' :: (repo ++ '/' :: (revision ++ '/' :: file)))).drop 4)
      = a' :: repo :: revision :: splitSlash file := by
    show splitSlash (a' ++ '/' :: (repo ++ '/' :: (revision ++ '/' :: file))) = _
    rw [splitSlash_append _ ha', splitSlash_append _ hr, splitSlash_append _ hv]
  have hlen0 : 0 < (splitSlash file).length :=
    List.length_pos.2 (splitSlash_ne_nil file)
  rw [hform, PackedFileRef.Validate]
  rw [if_neg (not_not_intro hpre)]
  have hlen : ¬ ((['h', 'f', ':'] ++ c :: (a' ++ '/' :: (repo ++ '/' :: (revision ++ '/' :: file)))).length < 4) := by
    simp only [List.length_append, List.length_cons]
    omega
  rw [if_neg hlen]
  simp only [hsplit]
  have h4 : ¬ ((a' :: repo :: revision :: splitSlash file).length < 4) := by
    simp only [List.length_cons]
    omega
  rw [if_neg h4]
  have hgetD : (a' :: repo :: revision :: splitSlash file).getD 2 [] = revision := rfl
  rw [hgetD]
  constructor
  · intro h
    by_cases h0 : revision.length = 0
    · rw [if_pos h0] at h
      exact absurd h (by simp)
    · rw [if_neg h0] at h
      by_cases hall : ((a' :: repo :: revision :: splitSlash file).all
          (fun q => 3 ≤ q.length)) = true
      · simp only [List.all_cons, Bool.and_eq_true, decide_eq_true_eq,
          List.all_eq_true] at hall
        obtain ⟨k1, k2, k3, k4⟩ := hall
        refine ⟨by simp only [List.length_cons]; omega, k2, k3, fun seg hs => ?_⟩
        have := k4 seg hs
        simpa using this
      · rw [if_pos hall] at h
        exact absurd h (by simp)
  · rintro ⟨h1, h2, h3, h4'⟩
    have ha'3 : 3 ≤ a'.length := by
      simp only [List.length_cons] at h1
      omega
    have hallT : ((a' :: repo :: revision :: splitSlash file).all
        (fun q => 3 ≤ q.length)) = true := by
      simp only [List.all_cons, Bool.and_eq_true, decide_eq_true_eq,
        List.all_eq_true]
      exact ⟨ha'3, h2, h3, fun seg hs => by simpa using h4' seg hs⟩
    rw [if_neg (by omega), if_neg (not_not_intro hallT)]

/-- Witness for the amended C5 at a concrete reference. -/
theorem Validate_characterization_witness :
    PackedFileRef.Validate (MakePackedFileRef (gs "abcd") (gs "ghi") (gs "main") (gs "file.txt")) = .ok :=
  (Validate_characterization (gs "abcd") (gs "ghi") (gs "main") (gs "file.txt")
      (by decide) (by decide) (by decide) (by decide)).2
    ⟨by decide, by decide, by decide, by decide⟩

/-! ### Claims C3 and C9: the authGet retry loop -/

theorem retryable_ne_401 {s : Nat} (h : retryable s = true) : ¬ (s = 401) := by
  simp only [retryable, Bool.or_eq_true, decide_eq_true_eq, Bool.and_eq_true] at h
  omega

/-- Exhausting the loop: when every attempt the remaining fuel allows yields a
retryable response, the loop sleeps `i+1, i+2, ...` seconds and ends in
`retryExhausted` with exactly `fuel` further `Do` calls. -/
theorem authGetLoop_exhaust (tok : Bool) (doF : Nat → DoResult) :
    ∀ fuel i acc, (∀ j, j < fuel → retryResp (doF (i + j))) →
      authGetLoop tok doF fuel i acc =
        ⟨.retryExhausted, i + fuel,
         acc.reverse ++ (List.range fuel).map (fun j => i + j + 1)⟩ := by
  intro fuel
  induction fuel with
  | zero => intro i acc _; simp [authGetLoop]
  | succ fuel ih =>
    intro i acc h
    obtain ⟨s, hs, h400, hretry⟩ := h 0 (Nat.succ_pos fuel)
    rw [Nat.add_zero] at hs
    rw [authGetLoop, hs, authGetStep]
    rw [if_pos h400, if_neg (retryable_ne_401 hretry), if_pos hretry]
    rw [ih (i + 1) ((i + 1) :: acc) (fun j hj => by
      have := h (j + 1) (Nat.succ_lt_succ hj)
      rwa [show i + (j + 1) = i + 1 + j by omega] at this)]
    rw [List.reverse_cons, List.range_succ_eq_map, List.map_cons, List.map_map,
      List.append_assoc, List.singleton_append]
    have hfun : ((fun j => i + j + 1) ∘ Nat.succ) = (fun j : Nat => i + 1 + j + 1) :=
      funext fun j => by simp only [Function.comp_apply]; omega
    rw [hfun]
    simp only [FetchTrace.mk.injEq, Nat.add_zero, true_and, and_true]
    omega

/-- A successful response on attempt `k` after `k` retryable responses: the
loop sleeps `i+1, ..., i+k` seconds and returns the response. -/
theorem authGetLoop_success_after (tok : Bool) (doF : Nat → DoResult) :
    ∀ k fuel i acc s, k < fuel → (∀ j, j < k → retryResp (doF (i + j))) →
      doF (i + k) = .response s → s < 400 →
      authGetLoop tok doF fuel i acc =
        ⟨.success s, i + k + 1,
         acc.reverse ++ (List.range k).map (fun j => i + j + 1)⟩ := by
  intro k
  induction k with
  | zero =>
    intro fuel i acc s hk _ hresp hs
    obtain ⟨fuel, rfl⟩ : ∃ f, fuel = f + 1 :=
      ⟨fuel - 1, by omega⟩
    rw [Nat.add_zero] at hresp
    rw [authGetLoop, hresp, authGetStep, if_neg (by omega : ¬ (400 ≤ s))]
    simp
  | succ k ih =>
    intro fuel i acc s hk hprev hresp hs
    obtain ⟨fuel, rfl⟩ : ∃ f, fuel = f + 1 :=
      ⟨fuel - 1, by omega⟩
    obtain ⟨s0, hs0, h400, hretry⟩ := hprev 0 (Nat.succ_pos k)
    rw [Nat.add_zero] at hs0
    rw [authGetLoop, hs0, authGetStep]
    rw [if_pos h400, if_neg (retryable_ne_401 hretry), if_pos hretry]
    rw [ih fuel (i + 1) ((i + 1) :: acc) s (by omega)
      (fun j hj => by
        have := hprev (j + 1) (Nat.succ_lt_succ hj)
        rwa [show i + (j + 1) = i + 1 + j by omega] at this)
      (by rwa [show i + 1 + k = i + (k + 1) by omega]) hs]
    rw [List.reverse_cons, List.range_succ_eq_map, List.map_cons, List.map_map,
      List.append_assoc, List.singleton_append]
    have hfun : ((fun j => i + j + 1) ∘ Nat.succ) = (fun j : Nat => i + 1 + j + 1) :=
      funext fun j => by simp only [Function.comp_apply]; omega
    rw [hfun]
    simp only [FetchTrace.mk.injEq, Nat.add_zero, true_and, and_true]
    omega

/-- C3: the retry policy of `authGet`.  A 401 fails immediately, with the
outcome distinguishing whether a token was supplied; any other status ≥ 400
that is not 429/5xx fails immediately; a status < 400 is returned to the
caller; ten consecutive retryable responses exhaust the retries after sleeps
of 1..10 seconds and no 11th `Do` call is made; and `k < 10` retryable
responses followed by a success return the response after `k+1` calls and
sleeps of `1, ..., k` seconds. -/
theorem authGet_retry_policy (tok : Bool) (doF : Nat → DoResult) :
    (doF 0 = .response 401 →
      authGet tok doF =
        ⟨if tok then .authErrTokenRejected else .authErrTokenMissing, 1, []⟩) ∧
    (∀ s, doF 0 = .response s → 400 ≤ s → ¬ (s = 401) → retryable s = false →
      authGet tok doF = ⟨.httpErr s, 1, []⟩) ∧
    (∀ s, doF 0 = .response s → s < 400 →
      authGet tok doF = ⟨.success s, 1, []⟩) ∧
    ((∀ j, j < 10 → retryResp (doF j)) →
      authGet tok doF =
        ⟨.retryExhausted, 10, [1, 2, 3, 4, 5, 6, 7, 8, 9, 10]⟩) ∧
    (∀ k s, k < 10 → (∀ j, j < k → retryResp (doF j)) →
      doF k = .response s → s < 400 →
      authGet tok doF =
        ⟨.success s, k + 1, (List.range k).map (fun j => j + 1)⟩) := by
  refine ⟨?_, ?_, ?_, ?_, ?_⟩
  · intro h
    rw [authGet, authGetLoop, h, authGetStep,
      if_pos (by omega : (400 : Nat) ≤ 401), if_pos rfl]
    rfl
  · intro s h h400 h401 hnr
    rw [authGet, authGetLoop, h, authGetStep, if_pos h400, if_neg h401, hnr,
      if_neg (by simp)]
    rfl
  · intro s h hs
    rw [authGet, authGetLoop, h, authGetStep, if_neg (by omega : ¬ (400 ≤ s))]
    rfl
  · intro h
    rw [authGet, authGetLoop_exhaust tok doF 10 0 [] (fun j hj => by
      simpa using h j hj)]
    rfl
  · intro k s hk hprev hresp hs
    rw [authGet, authGetLoop_success_after tok doF k 10 0 [] s hk
      (fun j hj => by simpa using hprev j hj) (by simpa using hresp) hs]
    simp only [FetchTrace.mk.injEq, Nat.zero_add, List.reverse_nil,
      List.nil_append]

/-- Witness for C3: ten consecutive 503 responses exhaust the retries with
sleeps of 1..10 seconds. -/
theorem authGet_retry_policy_witness :
    authGet true (fun _ => .response 503) =
      ⟨.retryExhausted, 10, [1, 2, 3, 4, 5, 6, 7, 8, 9, 10]⟩ :=
  (authGet_retry_policy true (fun _ => .response 503)).2.2.2.1
    (fun _ _ => ⟨503, rfl, by omega, by decide⟩)

/-- C9: when the underlying `h.Do` returns a non-nil error (and hence a nil
response), `authGet` evaluates `resp.StatusCode` on the nil response and
panics with a nil-pointer dereference instead of returning the error. -/
theorem authGet_nil_response_panic :
    authGet true (fun _ => .failure "connection refused") =
      ⟨.nilDerefPanic "connection refused", 1, []⟩ := rfl

/-! ### Claim C8: GetModelInfo field extraction -/

theorem foldPick_snd (ps : List (List Char × Int)) :
    ∀ acc, (foldPick ps acc).2 = ps.foldl (fun a p => max a p.2) acc.2 := by
  induction ps with
  | nil => intro acc; rfl
  | cons p rest ih =>
    intro acc
    obtain ⟨k, s⟩ := p
    rw [foldPick, ih, List.foldl_cons]
    congr 1
    by_cases h : acc.2 < s
    · rw [if_pos h]
      exact (max_eq_right (le_of_lt h)).symm
    · rw [if_neg h]
      exact (max_eq_left (le_of_not_lt h)).symm

theorem foldPick_eq_or_mem (ps : List (List Char × Int)) :
    ∀ acc, foldPick ps acc = acc ∨ foldPick ps acc ∈ ps := by
  induction ps with
  | nil => intro acc; exact Or.inl rfl
  | cons p rest ih =>
    intro acc
    obtain ⟨k, s⟩ := p
    rw [foldPick]
    by_cases h : acc.2 < s
    · rw [if_pos h]
      rcases ih (k, s) with h1 | h1
      · exact Or.inr (by rw [h1]; exact List.mem_cons_self _ _)
      · exact Or.inr (List.mem_cons_of_mem _ h1)
    · rw [if_neg h]
      rcases ih acc with h1 | h1
      · exact Or.inl h1
      · exact Or.inr (List.mem_cons_of_mem _ h1)

theorem foldPick_const (ps : List (List Char × Int)) :
    ∀ acc, (∀ p ∈ ps, p.2 ≤ acc.2) → foldPick ps acc = acc := by
  induction ps with
  | nil => intro acc _; rfl
  | cons p rest ih =>
    intro acc h
    obtain ⟨k, s⟩ := p
    rw [foldPick, if_neg (not_lt.2 (h (k, s) (List.mem_cons_self _ _)))]
    exact ih acc (fun q hq => h q (List.mem_cons_of_mem _ hq))

theorem init_le_foldl_max (ps : List (List Char × Int)) :
    ∀ a : Int, a ≤ ps.foldl (fun b q => max b q.2) a := by
  induction ps with
  | nil => intro a; exact le_refl a
  | cons q rest ih =>
    intro a
    rw [List.foldl_cons]
    exact le_trans (le_max_left _ _) (ih _)

theorem le_foldl_max (ps : List (List Char × Int)) :
    ∀ (a : Int) (p), p ∈ ps → p.2 ≤ ps.foldl (fun b q => max b q.2) a := by
  induction ps with
  | nil => intro a p hp; cases hp
  | cons q rest ih =>
    intro a p hp
    rw [List.foldl_cons]
    rcases List.mem_cons.1 hp with rfl | hp'
    · exact le_trans (le_max_right _ _) (init_le_foldl_max rest _)
    · exact ih _ p hp'

/-- C8: on a freshly-initialized model, `GetModelInfo` copies the sibling
filenames in the response's original order, copies the timestamps and commit,
and sets `(TensorType, NumWeights)` to a parameter-map entry holding the
largest (positive) parameter count, falling back to `safetensors.total` when
the map contributes no positive weight. -/
theorem GetModelInfo_largest_tensor (r : ModelInfoResponse) (m : ModelState)
    (h0 : m.NumWeights = 0) :
    (getModelInfoUpdate m r).Files = r.siblings ∧
    (getModelInfoUpdate m r).Created = r.createdAt ∧
    (getModelInfoUpdate m r).Modified = r.lastModified ∧
    (getModelInfoUpdate m r).SHA = r.sha ∧
    (0 < r.parameters.foldl (fun a p => max a p.2) 0 →
      (getModelInfoUpdate m r).NumWeights
          = r.parameters.foldl (fun a p => max a p.2) 0 ∧
      ((getModelInfoUpdate m r).TensorType, (getModelInfoUpdate m r).NumWeights)
          ∈ r.parameters) ∧
    (r.parameters.foldl (fun a p => max a p.2) 0 = 0 →
      (getModelInfoUpdate m r).NumWeights = r.total ∧
      (getModelInfoUpdate m r).TensorType = m.TensorType) := by
  have hsnd : (foldPick r.parameters (m.TensorType, m.NumWeights)).2
      = r.parameters.foldl (fun a p => max a p.2) 0 := by
    rw [foldPick_snd]
    simp [h0]
  have hNW : (getModelInfoUpdate m r).NumWeights
      = (if (foldPick r.parameters (m.TensorType, m.NumWeights)).2 = 0 then r.total
         else (foldPick r.parameters (m.TensorType, m.NumWeights)).2) := rfl
  have hTT : (getModelInfoUpdate m r).TensorType
      = (foldPick r.parameters (m.TensorType, m.NumWeights)).1 := rfl
  refine ⟨rfl, rfl, rfl, rfl, ?_, ?_⟩
  · intro hw
    have hne : ¬ ((foldPick r.parameters (m.TensorType, m.NumWeights)).2 = 0) := by
      rw [hsnd]
      omega
    refine ⟨by rw [hNW, if_neg hne, hsnd], ?_⟩
    rcases foldPick_eq_or_mem r.parameters (m.TensorType, m.NumWeights) with he | hm
    · exfalso
      apply hne
      rw [he]
      exact h0
    · rw [hNW, if_neg hne, hTT, Prod.mk.eta]
      exact hm
  · intro hw0
    have hall : ∀ p ∈ r.parameters, p.2 ≤ (m.TensorType, m.NumWeights).2 := by
      intro p hp
      have h1 := le_foldl_max r.parameters 0 p hp
      rw [hw0] at h1
      simpa [h0] using h1
    have hc := foldPick_const r.parameters (m.TensorType, m.NumWeights) hall
    constructor
    · rw [hNW, hc]
      simp [h0]
    · rw [hTT, hc]

/-- Witness for C8 on the Phi-3 test response: `safetensors.parameters =
{"BF16": 3821079552}` and 19 siblings yield `TensorType = "BF16"`,
`NumWeights = 3821079552` and exactly those 19 files in order. -/
theorem GetModelInfo_largest_tensor_witness :
    freshModel.NumWeights = 0 ∧
    (getModelInfoUpdate freshModel phi3Resp).TensorType = gs "BF16" ∧
    (getModelInfoUpdate freshModel phi3Resp).NumWeights = 3821079552 ∧
    (getModelInfoUpdate freshModel phi3Resp).Files.length = 19 ∧
    (getModelInfoUpdate freshModel phi3Resp).Files = phi3Resp.siblings := by
  have h := GetModelInfo_largest_tensor phi3Resp freshModel rfl
  refine ⟨rfl, by decide, ?_, by decide, h.1⟩
  exact ((h.2.2.2.2.1 (by decide)).1).trans (by decide)

/-! ### Claim C6: decode strictness of GetModelInfo -/

/-- C6 counterexample: the decoder always has `DisallowUnknownFields` set, so
a valid-JSON response carrying one field unknown to the schema makes
`GetModelInfo` fail with a parse error, although no caller ever asked for
strict decoding — there is no lenient mode. -/
theorem GetModelInfo_lenient_counterexample :
    isKnownModelInfoField (gs "brandNewField") = false ∧
    GetModelInfoModel freshModel
        (.ok ([gs "modelId", gs "brandNewField"], phi3Resp)) = .parseErr := by
  exact ⟨by decide, by decide⟩

/-- C6 amended: `GetModelInfo` decodes strictly, unconditionally: a metadata
response body containing any top-level field unknown to the expected schema is
a fatal parse error, and a body whose fields are all known decodes into the
field update. -/
theorem GetModelInfo_strict_decoding (m : ModelState) (fields : List (List Char))
    (r : ModelInfoResponse) :
    ((∃ f ∈ fields, isKnownModelInfoField f = false) →
      GetModelInfoModel m (.ok (fields, r)) = .parseErr) ∧
    ((∀ f ∈ fields, isKnownModelInfoField f = true) →
      GetModelInfoModel m (.ok (fields, r)) = .ok (getModelInfoUpdate m r)) := by
  constructor
  · rintro ⟨f, hf, hunk⟩
    have hall : fields.all isKnownModelInfoField = false := by
      cases hb : fields.all isKnownModelInfoField
      · rfl
      · rw [List.all_eq_true] at hb
        have hcontra := hb f hf
        rw [hunk] at hcontra
        cases hcontra
    simp [GetModelInfoModel, decodeModelInfoFields, disallowUnknown, hall]
  · intro hall
    have hb : fields.all isKnownModelInfoField = true := List.all_eq_true.2 hall
    simp [GetModelInfoModel, decodeModelInfoFields, disallowUnknown, hb]

/-- Witness for the amended C6: a response with an unknown field is rejected. -/
theorem GetModelInfo_strict_decoding_witness :
    GetModelInfoModel freshModel
        (.ok ([gs "sha", gs "unexpected2025"], phi3Resp)) = .parseErr :=
  (GetModelInfo_strict_decoding freshModel [gs "sha", gs "unexpected2025"] phi3Resp).1
    ⟨gs "unexpected2025", by decide, by decide⟩

/-! ### Claim C4: resolveCommit -/

/-- C4: with a usable cache directory, a readable ref-pointer file whose
trimmed content matches the commit-id shape is trusted verbatim — no network
call, no metadata, nothing written; with no ref-pointer file, the metadata
call is issued, its commit id is shape-checked, persisted to the ref-pointer
file, and returned together with the freshly fetched metadata. -/
theorem resolveCommit_ref_pointer (env : ResolveEnv) (hmk : env.mkdirOk = true) :
    (∀ b, env.refFile = some b → reSHA1match (trimSpace b) = true →
      resolveCommit env = ⟨.ok (trimSpace b, none), false, none⟩) ∧
    (∀ r, env.refFile = none → env.metadata = .ok r →
      reSHA1match r.sha = true → env.writeOk = true →
      resolveCommit env =
        ⟨.ok (r.sha, some (getModelInfoUpdate freshModel r)), true, some r.sha⟩) := by
  obtain ⟨mk, rf, md, w⟩ := env
  replace hmk : mk = true := hmk
  subst hmk
  constructor
  · intro b hb hmatch
    replace hb : rf = some b := hb
    subst hb
    simp [resolveCommit, hmatch]
  · intro r hrf hmd hsha hw
    replace hrf : rf = none := hrf
    subst hrf
    replace hmd : md = Except.ok r := hmd
    subst hmd
    replace hw : w = true := hw
    subst hw
    simp [resolveCommit, getModelInfoUpdate] at hsha ⊢
    simp [hsha]

/-- Witness for C4 in both directions: the cache hit trusts the trimmed file
content without a network call, and the cache miss resolves, persists and
returns the metadata. -/
theorem resolveCommit_ref_pointer_witness :
    resolveCommit refEnvHit = ⟨.ok (llamaSHA, none), false, none⟩ ∧
    resolveCommit refEnvMiss =
      ⟨.ok (llamaSHA, some (getModelInfoUpdate freshModel snapResp)), true,
       some llamaSHA⟩ := by
  constructor
  · have h := (resolveCommit_ref_pointer refEnvHit rfl).1
      (gs "  13afe5124825b4f3751f836b40dafda64c1ed062\n") rfl (by decide)
    exact h.trans (by decide)
  · exact (resolveCommit_ref_pointer refEnvMiss rfl).2 snapResp rfl rfl (by decide) rfl

/-! ### Claim C1: EnsureSnapshot -/

/-- C1 (code bug): `EnsureSnapshot` performs no pattern validation at all.
Called on a cold cache with the traversal pattern `"../secret"` and the
absolute pattern `"/etc/passwd"`, it first resolves the commit — issuing the
metadata network request — and then fails with the unconditional
`"implement me"` error; no `InvalidPattern` error exists in the code. -/
theorem EnsureSnapshot_no_pattern_check :
    EnsureSnapshot coldSnapshotEnv [gs "../secret", gs "/etc/passwd"] =
      ⟨.error .implementMe, true⟩ := by decide

/-! ### Claim C2: GetFileInfo header validation -/

/-- C2 counterexample: `GetFileInfo` succeeds on a response whose etag is 64
uppercase hex characters — which does not match the claim's lowercase shape
`^[a-f0-9]\x7b64\x7d$` — and whose size header is the negative `"-5"`, which is not
a non-negative integer; the claim says both must be fatal, but the code's
`reSHA256` is case-insensitive and `strconv.ParseInt` is signed. -/
theorem GetFileInfo_claim_counterexample :
    GetFileInfo badHeaders =
      .ok (gs "13afe5124825b4f3751f836b40dafda64c1ed062")
        (List.replicate 64 'A') (-5) ∧
    specLowerSHA256 (List.replicate 64 'A') = false ∧
    ¬ ((0 : Int) ≤ -5) := by
  exact ⟨by decide, by decide, by decide⟩

/-- C2 amended: `GetFileInfo` fails exactly when a required header is invalid,
where the etag shape is the *case-insensitive* `^[a-fA-F0-9]\x7b64\x7d$` and the
size must parse as a *signed* 64-bit integer: missing `X-Repo-Commit` is a
missing-header error; a stripped etag not matching the shape is an
integrity-format error; both size headers absent is a missing-header error; a
non-parsing size is fatal; otherwise the commit, stripped etag and parsed
(possibly negative) size are returned. -/
theorem GetFileInfo_header_validation (h : FileInfoHeaders) :
    (h.xRepoCommit = [] → GetFileInfo h = .missingCommit) ∧
    (h.xRepoCommit ≠ [] → reSHA256match (strippedEtag h) = false →
      GetFileInfo h = .badEtag (strippedEtag h)) ∧
    (h.xRepoCommit ≠ [] → reSHA256match (strippedEtag h) = true →
      chosenSize h = [] → GetFileInfo h = .missingSize) ∧
    (h.xRepoCommit ≠ [] → reSHA256match (strippedEtag h) = true →
      chosenSize h ≠ [] → parseInt64 (chosenSize h) = none →
      GetFileInfo h = .badSize (chosenSize h)) ∧
    (∀ n, h.xRepoCommit ≠ [] → reSHA256match (strippedEtag h) = true →
      parseInt64 (chosenSize h) = some n →
      GetFileInfo h = .ok h.xRepoCommit (strippedEtag h) n) := by
  refine ⟨?_, ?_, ?_, ?_, ?_⟩
  · intro h1
    simp [GetFileInfo, h1]
  · intro h1 h2
    simp [GetFileInfo, h1, h2]
  · intro h1 h2 h3
    simp [GetFileInfo, h1, h2, h3]
  · intro h1 h2 h3 h4
    simp [GetFileInfo, h1, h2, h3, h4]
  · intro n h1 h2 h3
    have h4 : chosenSize h ≠ [] := by
      intro he
      rw [he, show parseInt64 [] = (none : Option Int) from rfl] at h3
      cases h3
    simp [GetFileInfo, h1, h2, h4, h3]

/-- Witness for the amended C2: a well-formed response yields the commit, the
stripped etag and the parsed size. -/
theorem GetFileInfo_header_validation_witness :
    GetFileInfo okHeaders =
      .ok okHeaders.xRepoCommit (strippedEtag okHeaders) 123 :=
  (GetFileInfo_header_validation okHeaders).2.2.2.2 123 (by decide) (by decide)
    (by decide)

/-! ### Claim C10: New with an invalid token -/

/-- C10 counterexample: a non-empty token without the `hf_` prefix makes `New`
fail, but with no pre-existing token file the rejected token has already been
written to the token file before the prefix check — the filesystem is *not*
left unchanged. -/
theorem New_invalid_token_counterexample :
    (gs "xyztoken" ≠ ([] : List Char)) ∧
    (gs "hf_").isPrefixOf (gs "xyztoken") = false ∧
    noTokenFileEnv.tokenFile = none ∧
    (NewClient (gs "xyztoken") noTokenFileEnv).result = .error .invalidToken ∧
    (NewClient (gs "xyztoken") noTokenFileEnv).written = some (gs "xyztoken") := by
  exact ⟨by decide, by decide, rfl, by decide, by decide⟩

/-- C10 amended: for every non-empty token not starting with `hf_`, client
construction fails; but when no token file existed beforehand and the write
succeeds, the rejected token has already been persisted to the token file
(when the file existed, or the write fails, nothing is recorded as written). -/
theorem New_invalid_token_behavior (token : List Char) (env : NewEnv)
    (d : List Char) (hne : token ≠ [])
    (hpre : (gs "hf_").isPrefixOf token = false)
    (hhome : env.homeDir = .ok d) (hmk : env.mkdirOk = true) :
    (env.tokenFile = none → env.writeOk = true →
      (NewClient token env).result = .error .invalidToken ∧
      (NewClient token env).written = some token) ∧
    (∀ c, env.tokenFile = some c →
      (NewClient token env).result = .error .invalidToken ∧
      (NewClient token env).written = none) ∧
    (env.tokenFile = none → env.writeOk = false →
      (NewClient token env).result = .error .writeFailed ∧
      (NewClient token env).written = none) := by
  obtain ⟨hd, hh, hc, htp, htok, mk, tf, w⟩ := env
  replace hhome : hd = .ok d := hhome
  subst hhome
  replace hmk : mk = true := hmk
  subst hmk
  refine ⟨?_, ?_, ?_⟩
  · intro h1 h2
    replace h1 : tf = none := h1
    subst h1
    replace h2 : w = true := h2
    subst h2
    constructor <;> simp [NewClient, hne, hpre]
  · intro c h1
    replace h1 : tf = some c := h1
    subst h1
    constructor <;> simp [NewClient, hne, hpre]
  · intro h1 h2
    replace h1 : tf = none := h1
    subst h1
    replace h2 : w = false := h2
    subst h2
    constructor <;> simp [NewClient, hne, hpre]

/-- Witness for the amended C10: with a pre-existing token file, an invalid
token is rejected and nothing is written. -/
theorem New_invalid_token_behavior_witness :
    (NewClient (gs "xyz") someTokenFileEnv).result = .error .invalidToken ∧
    (NewClient (gs "xyz") someTokenFileEnv).written = none :=
  (New_invalid_token_behavior (gs "xyz") someTokenFileEnv (gs "/home/user")
      (by decide) (by decide) rfl rfl).2.1 (gs "hf_old") rfl
